import Mathlib

/-!
# Scheduler valuation function and agent request handling

A shallow embedding of `driver/scheduler/scheduler_score.go` and of the
`init` / `handleRequest` methods of `agent/agent_server.go`.

Conventions of the embedding:

* `float64` arithmetic is taken as exact and carried out in `ℚ`.
* Go `string` and `[]byte` values of the wire protocol are lists of bytes
  (`List Nat`, every element below 256); file names and capability tags are
  `String`.
* A Go run-time panic is the `none` result of an `Option`.
* Collaborators that live outside the embedded files (the directory service,
  the distance metric, the protobuf codec, the control handler) are fields of
  the structure that stands for the receiver.
-/

namespace Glow

/-! ## Data model of the scheduler -/

/-- The shard reference held in `Task.Inputs`; only its `Name()` is used. -/
structure DatasetShard where
  Name : String
  deriving DecidableEq, Repr

/-- The `plan.Task` fields read by `Score`. -/
structure Task where
  Inputs : List DatasetShard
  deriving DecidableEq, Repr

/-- The `plan.TaskGroup` fields read by `Score`. -/
structure TaskGroup where
  Tasks : List Task
  RequiredResource : String
  deriving DecidableEq, Repr

/-- The `resource.Allocation` fields read by `Score`; `Loc` stands for
`resource.Location`. -/
structure Allocation (Loc : Type) where
  Location : Loc
  ProvidedResources : List String

/-- The receiver of `Score`. `GetShardLocation` is the directory lookup
`s.shardLocator.GetShardLocation` (`none` when `found` is false) and
`Distance` is `resource.Location.Distance`; both are declared outside the
embedded file and are taken as parameters. -/
structure Scheduler (Loc : Type) where
  ExecutableFileHash : String
  GetShardLocation : String → Option Loc
  Distance : Loc → Loc → ℚ

/-- Linear search `containsStr(s, str)`. -/
def containsStr : List String → String → Bool
  | [], _ => false
  | v :: s, str => if v = str then true else containsStr s str

/-- The directory key of an input: `ExecutableFileHash + "-" + input.Name()`. -/
def shardKey {Loc : Type} (s : Scheduler Loc) (input : DatasetShard) : String :=
  s.ExecutableFileHash ++ "-" ++ input.Name

/-- The body of `for _, input := range firstTask.Inputs`, threading `cost`. -/
def scoreLoop {Loc : Type} (s : Scheduler Loc) (tg : TaskGroup) (al : Allocation Loc) :
    List DatasetShard → ℚ → ℚ
  | [], cost => cost
  | input :: rest, cost =>
    match s.GetShardLocation (shardKey s input) with
    | none => scoreLoop s tg al rest cost
    | some dataLocation =>
      let cost1 :=
        if tg.RequiredResource ≠ "" ∧ containsStr al.ProvidedResources tg.RequiredResource = false
        then cost + 10000 else cost
      scoreLoop s tg al rest (cost1 + s.Distance dataLocation al.Location)

/-- The value of `cost` at the division in `Score`, for a given first task. -/
def scoreCost {Loc : Type} (s : Scheduler Loc) (tg : TaskGroup) (al : Allocation Loc)
    (firstTask : Task) : ℚ :=
  scoreLoop s tg al firstTask.Inputs 1

/-- `Scheduler.Score`. `tg.Tasks[0]` panics on an empty task list (`none`). -/
def Score {Loc : Type} (s : Scheduler Loc) (tg : TaskGroup) (bid : ℚ) (al : Allocation Loc) :
    Option ℚ :=
  match tg.Tasks with
  | [] => none
  | firstTask :: _ => some (bid / scoreCost s tg al firstTask)

/-- A directory that knows shard `h-a` at location 0 and `h-b` at location 5. -/
def demoScheduler : Scheduler Nat where
  ExecutableFileHash := "h"
  GetShardLocation := fun k => if k = "h-a" then some 0 else if k = "h-b" then some 5 else none
  Distance := fun x y => ((Int.natAbs ((x : Int) - y) : Nat) : ℚ)

/-! ## Specification-side vocabulary for the scheduler -/

/-- The locations of those inputs whose shard the directory service knows,
in input order. -/
def locatedInputs {Loc : Type} (s : Scheduler Loc) (inputs : List DatasetShard) : List Loc :=
  inputs.filterMap (fun input => s.GetShardLocation (shardKey s input))

/-- The sum, over the located inputs, of the distance from the shard's
location to the allocation's location. -/
def distanceSum {Loc : Type} (s : Scheduler Loc) (al : Allocation Loc)
    (inputs : List DatasetShard) : ℚ :=
  ((locatedInputs s inputs).map (fun l => s.Distance l al.Location)).sum

/-- The task group declares a required capability and the allocation does not
provide it. -/
def capabilityMismatch {Loc : Type} (tg : TaskGroup) (al : Allocation Loc) : Prop :=
  tg.RequiredResource ≠ "" ∧ tg.RequiredResource ∉ al.ProvidedResources

/-- The task group with every unknown-location input removed from the first
task's input list. -/
def dropUnknownInputs {Loc : Type} (s : Scheduler Loc) (tg : TaskGroup) : TaskGroup :=
  match tg.Tasks with
  | [] => tg
  | firstTask :: rest =>
    { tg with
      Tasks :=
        { firstTask with
          Inputs := firstTask.Inputs.filter
            (fun input => (s.GetShardLocation (shardKey s input)).isSome) } :: rest }

instance instDecidableCapabilityMismatch {Loc : Type} (tg : TaskGroup) (al : Allocation Loc) :
    Decidable (capabilityMismatch tg al) := by
  unfold capabilityMismatch; exact inferInstance

/-! ## Agent server: clean-restart cleanup in `init` -/

/-- The `os.FileInfo` fields read by `init`. -/
structure FileInfo where
  Name : String
  IsDir : Bool
  deriving DecidableEq, Repr

/-- The store directory `r.storageBackend.dir` as the operating system holds
it: its entries, in the order `ioutil.ReadDir` lists them, whether it can be
listed, and the names for which `os.Remove` returns an error. -/
structure StoreDir where
  entries : List FileInfo
  listable : Bool
  undeletable : List String
  deriving DecidableEq, Repr

/-- The call `ioutil.ReadDir(dir)`: the entries, or `none` for an error. -/
def ReadDir (d : StoreDir) : Option (List FileInfo) :=
  if d.listable then some d.entries else none

/-- The call `os.Remove(filepath.Join(dir, name))`, whose error `init`
discards: when the call fails the directory is unchanged, otherwise the entry
called `name` leaves it. -/
def Remove (name : String) (d : StoreDir) : StoreDir :=
  if name ∈ d.undeletable then d
  else { d with entries := d.entries.filter (fun fi => fi.Name != name) }

/-- The Go library function `strings.HasSuffix`:
`len(s) >= len(suffix) && s[len(s)-len(suffix):] == suffix`. -/
def HasSuffix (s suffix : String) : Bool :=
  decide (suffix.data.length ≤ s.data.length) &&
    (s.data.drop (s.data.length - suffix.data.length) == suffix.data)

/-- The suffix `fmt.Sprintf("-%d.dat", port)`. -/
def portSuffix (port : Int) : String :=
  "-" ++ toString port ++ ".dat"

/-- The options read by `init`, and the outcome of binding the listener
(`listenErr` is `err != nil` after `net.Listen` / `tls.Listen`). -/
structure AgentServerOption where
  Port : Int
  CleanRestart : Bool
  listenErr : Bool
  deriving DecidableEq, Repr

/-- The loop `for _, fi := range fileInfos` of `init`, threading the
directory and the list of names handed to `os.Remove`. -/
def cleanupLoop (suffix : String) :
    List FileInfo → StoreDir × List String → StoreDir × List String
  | [], st => st
  | fi :: rest, (d, removed) =>
    let name := fi.Name
    if !fi.IsDir && HasSuffix name suffix then
      cleanupLoop suffix rest (Remove name d, removed ++ [name])
    else
      cleanupLoop suffix rest (d, removed)

/-- `AgentServer.init`, restricted to its effect on the store directory.
`log.Fatal` after a failed listen ends the process (`none`); otherwise the
result is the directory afterwards with the names handed to `os.Remove`. -/
def AgentServer.init (o : AgentServerOption) (d : StoreDir) : Option (StoreDir × List String) :=
  if o.listenErr then none
  else if o.CleanRestart then
    match ReadDir d with
    | some fileInfos => some (cleanupLoop (portSuffix o.Port) fileInfos (d, []))
    | none => some (d, [])
  else some (d, [])

/-- The entries the clean restart is meant to purge: non-directories whose
name ends with the port suffix. -/
def isStale (port : Int) (fi : FileInfo) : Bool :=
  !fi.IsDir && HasSuffix fi.Name (portSuffix port)

/-! ## Agent server: `handleRequest` -/

/-- What `handleRequest` observes of the connection: whether it is a
`*tls.Conn`, the `HandshakeComplete` field of its connection state, and the
bytes that follow the first frame. -/
structure Conn where
  isTLS : Bool
  HandshakeComplete : Bool
  pending : List Nat
  deriving DecidableEq, Repr

/-- The triple returned by `util.ReadBytes(conn, buf)`: the flag `f`, the
payload `message.Data()` and whether `err != nil`. -/
structure ReadResult where
  f : Nat
  data : List Nat
  err : Bool
  deriving DecidableEq, Repr

/-- The receiver of `handleRequest`. `Data` is the constant `util.Data`;
`Unmarshal` and `Marshal` are the protobuf codec of `cmd.ControlMessage`
(`none` for an error) and `handleCommandConnection` is the control handler
(`none` for a nil reply). All four are declared outside the embedded file. -/
structure AgentServer (Msg : Type) where
  Data : Nat
  Unmarshal : List Nat → Option Msg
  Marshal : Msg → Option (List Nat)
  handleCommandConnection : Msg → Option Msg

/-- The observable steps of one run of `handleRequest`, in order. -/
inductive Event (Msg : Type) where
  | logHandshake
  | printFlag
  | logReadError
  | handleLocalWriteConnection (name : List Nat)
  | handleReadConnection (name : List Nat) (offset : Int)
  | handleCommandConnection (newCmd : Msg)
  | connWrite (data : List Nat)
  | fatal
  deriving DecidableEq, Repr

/-- The Go library function `bytes.HasPrefix`:
`len(s) >= len(p) && bytes.Equal(s[0:len(p)], p)`. -/
def HasPrefix (s p : List Nat) : Bool :=
  decide (p.length ≤ s.length) && (s.take p.length == p)

/-- The bytes of `[]byte("PUT ")`. -/
def PUT : List Nat := [80, 85, 84, 32]

/-- The bytes of `[]byte("GET ")`. -/
def GET : List Nat := [71, 69, 84, 32]

/-- The bytes of `[]byte("CMD ")`. -/
def CMD : List Nat := [67, 77, 68, 32]

/-- Modelled from the spec: `util.ReadUint64`, which is declared outside the
embedded file, reads the 8-byte big-endian unsigned offset that follows the
frame on the connection. -/
def ReadUint64 (conn : Conn) : Nat :=
  (conn.pending.take 8).foldl (fun acc b => acc * 256 + b % 256) 0

/-- The Go conversion `int64(v)` of a `uint64`: the two's-complement
reading of the same 64 bits. -/
def int64 (v : Nat) : Int :=
  if v % 2 ^ 64 < 2 ^ 63 then ((v % 2 ^ 64 : Nat) : Int) else ((v % 2 ^ 64 : Nat) : Int) - 2 ^ 64

/-- `AgentServer.handleRequest`, given the result of its first read. -/
def AgentServer.handleRequest {Msg : Type} (r : AgentServer Msg) (conn : Conn)
    (rd : ReadResult) : List (Event Msg) :=
  if conn.isTLS && !conn.HandshakeComplete then [Event.logHandshake]
  else if rd.f ≠ r.Data then [Event.printFlag]
  else
    let logged : List (Event Msg) := if rd.err then [Event.logReadError] else []
    if HasPrefix rd.data PUT then
      let name := rd.data.drop 4
      logged ++ [Event.handleLocalWriteConnection name]
    else if HasPrefix rd.data GET then
      let name := rd.data.drop 4
      let offset := ReadUint64 conn
      logged ++ [Event.handleReadConnection name (int64 offset)]
    else if HasPrefix rd.data CMD then
      match r.Unmarshal (rd.data.drop 4) with
      | none => logged ++ [Event.fatal]
      | some newCmd =>
        match r.handleCommandConnection newCmd with
        | none => logged ++ [Event.handleCommandConnection newCmd]
        | some reply =>
          match r.Marshal reply with
          | none => logged ++ [Event.handleCommandConnection newCmd, Event.fatal]
          | some data => logged ++ [Event.handleCommandConnection newCmd, Event.connWrite data]
    else logged

/-- An event that hands the request to the shard write path, the shard read
path or the control-message handler. -/
def Event.isDispatch {Msg : Type} : Event Msg → Bool
  | Event.handleLocalWriteConnection _ => true
  | Event.handleReadConnection _ _ => true
  | Event.handleCommandConnection _ => true
  | _ => false

/-- An event that writes to the connection. -/
def Event.isConnWrite {Msg : Type} : Event Msg → Bool
  | Event.connWrite _ => true
  | _ => false

/-- The operations dispatched by a run. -/
def dispatched {Msg : Type} (evs : List (Event Msg)) : List (Event Msg) :=
  evs.filter Event.isDispatch

/-- The 8 bytes of the big-endian encoding of `v`. -/
def uint64Bytes (v : Nat) : List Nat :=
  [v / 256 ^ 7 % 256, v / 256 ^ 6 % 256, v / 256 ^ 5 % 256, v / 256 ^ 4 % 256,
   v / 256 ^ 3 % 256, v / 256 ^ 2 % 256, v / 256 % 256, v % 256]

/-- An agent whose control messages are their own encoding; the payload
`[255]` (a truncated varint) does not decode, and the handler replies to
nothing. -/
def demoAgent : AgentServer (List Nat) where
  Data := 0
  Unmarshal := fun b => if b = [255] then none else some b
  Marshal := fun m => some m
  handleCommandConnection := fun _ => none

/-! ## Lemmas on the scheduler -/

theorem containsStr_iff (l : List String) (str : String) :
    containsStr l str = true ↔ str ∈ l := by
  induction l with
  | nil => simp [containsStr]
  | cons v l ih =>
    by_cases h : v = str
    · simp [containsStr, h]
    · have h2 : ¬ str = v := fun e => h e.symm
      simp [containsStr, h, h2, ih]

theorem containsStr_false_iff (l : List String) (str : String) :
    containsStr l str = false ↔ str ∉ l := by
  rw [← containsStr_iff]; cases containsStr l str <;> simp

/-- What the loop computes: every located input adds its distance and, under a
capability mismatch, one further 10000. -/
theorem scoreLoop_eq {Loc : Type} (s : Scheduler Loc) (tg : TaskGroup) (al : Allocation Loc)
    (inputs : List DatasetShard) (cost : ℚ) :
    scoreLoop s tg al inputs cost =
      cost + (if capabilityMismatch tg al then 10000 * ((locatedInputs s inputs).length : ℚ) else 0)
        + distanceSum s al inputs := by
  induction inputs generalizing cost with
  | nil => simp [scoreLoop, locatedInputs, distanceSum]
  | cons input rest ih =>
    unfold scoreLoop
    cases hloc : s.GetShardLocation (shardKey s input) with
    | none =>
      simp only [ih]
      simp [locatedInputs, distanceSum, List.filterMap_cons, hloc]
    | some l =>
      simp only [ih]
      have hl : locatedInputs s (input :: rest) = l :: locatedInputs s rest := by
        simp [locatedInputs, List.filterMap_cons, hloc]
      have hd : distanceSum s al (input :: rest) =
          s.Distance l al.Location + distanceSum s al rest := by
        simp [distanceSum, hl]
      rw [hl, hd]
      by_cases hm : capabilityMismatch tg al
      · have hm2 : tg.RequiredResource ≠ "" ∧
            containsStr al.ProvidedResources tg.RequiredResource = false :=
          ⟨hm.1, (containsStr_false_iff _ _).2 hm.2⟩
        simp only [if_pos hm, if_pos hm2, List.length_cons]
        push_cast
        ring
      · have hm2 : ¬ (tg.RequiredResource ≠ "" ∧
            containsStr al.ProvidedResources tg.RequiredResource = false) :=
          fun h => hm ⟨h.1, (containsStr_false_iff _ _).1 h.2⟩
        simp only [if_neg hm, if_neg hm2]
        ring

/-- The cost at the division, in closed form. -/
theorem scoreCost_eq {Loc : Type} (s : Scheduler Loc) (tg : TaskGroup) (al : Allocation Loc)
    (firstTask : Task) :
    scoreCost s tg al firstTask =
      1 + (if capabilityMismatch tg al
            then 10000 * ((locatedInputs s firstTask.Inputs).length : ℚ) else 0)
        + distanceSum s al firstTask.Inputs := by
  unfold scoreCost; exact scoreLoop_eq s tg al firstTask.Inputs 1

theorem distanceSum_nonneg {Loc : Type} (s : Scheduler Loc) (al : Allocation Loc)
    (inputs : List DatasetShard) (hd : ∀ a b, 0 ≤ s.Distance a b) :
    0 ≤ distanceSum s al inputs := by
  unfold distanceSum
  apply List.sum_nonneg
  intro x hx
  obtain ⟨l, _, rfl⟩ := List.mem_map.1 hx
  exact hd _ _

theorem one_le_scoreCost {Loc : Type} (s : Scheduler Loc) (tg : TaskGroup) (al : Allocation Loc)
    (firstTask : Task) (hd : ∀ a b, 0 ≤ s.Distance a b) :
    1 ≤ scoreCost s tg al firstTask := by
  rw [scoreCost_eq]
  have h1 := distanceSum_nonneg s al firstTask.Inputs hd
  have h2 : (0 : ℚ) ≤ (if capabilityMismatch tg al
      then 10000 * ((locatedInputs s firstTask.Inputs).length : ℚ) else 0) := by
    split
    · positivity
    · exact le_rfl
  linarith

theorem scoreLoop_filter_located {Loc : Type} (s : Scheduler Loc) (tg : TaskGroup)
    (al : Allocation Loc) (inputs : List DatasetShard) (cost : ℚ) :
    scoreLoop s tg al
        (inputs.filter (fun input => (s.GetShardLocation (shardKey s input)).isSome)) cost =
      scoreLoop s tg al inputs cost := by
  induction inputs generalizing cost with
  | nil => rfl
  | cons input rest ih =>
    cases hloc : s.GetShardLocation (shardKey s input) with
    | none => simp [List.filter_cons, hloc, scoreLoop, ih]
    | some l => simp [List.filter_cons, hloc, scoreLoop, ih]

theorem Score_eq_of_tasks {Loc : Type} (s : Scheduler Loc) (tg : TaskGroup) (bid : ℚ)
    (al : Allocation Loc) (firstTask : Task) (rest : List Task)
    (hTasks : tg.Tasks = firstTask :: rest) :
    Score s tg bid al = some (bid / scoreCost s tg al firstTask) := by
  unfold Score; rw [hTasks]

theorem scoreCost_congr_tasks {Loc : Type} (s : Scheduler Loc) (tg : TaskGroup)
    (al : Allocation Loc) (firstTask : Task) (tasks : List Task) :
    scoreCost s { tg with Tasks := tasks } al firstTask = scoreCost s tg al firstTask := by
  rw [scoreCost_eq, scoreCost_eq]; rfl

theorem div_lt_div_of_cost_lt (bid c c' : ℚ) (hbid : 0 < bid) (hc : 1 ≤ c) (hlt : c < c') :
    bid / c' < bid / c := by
  have hc0 : (0 : ℚ) < c := by linarith
  exact div_lt_div_of_pos_left hbid hc0 hlt

/-! ## The scheduler valuation function: claims -/

/-- C1: for a task group with at least one task whose required capability is
either absent or provided by the allocation, `Score` returns
`bid / (1 + S)`, `S` being the sum of the distances of the located inputs of
the first task; replacing the later tasks does not change the result. -/
theorem Score_matching_capability {Loc : Type} (s : Scheduler Loc) (tg : TaskGroup) (bid : ℚ)
    (al : Allocation Loc) (firstTask : Task) (rest : List Task)
    (hTasks : tg.Tasks = firstTask :: rest)
    (hcap : tg.RequiredResource = "" ∨ tg.RequiredResource ∈ al.ProvidedResources) :
    Score s tg bid al = some (bid / (1 + distanceSum s al firstTask.Inputs)) ∧
    ∀ later : List Task,
      Score s { tg with Tasks := firstTask :: later } bid al = Score s tg bid al := by
  have hm : ¬ capabilityMismatch tg al := by
    rintro ⟨h1, h2⟩
    rcases hcap with h | h
    · exact h1 h
    · exact h2 h
  refine ⟨?_, ?_⟩
  · rw [Score_eq_of_tasks s tg bid al firstTask rest hTasks, scoreCost_eq, if_neg hm, add_zero]
  · intro later
    rw [Score_eq_of_tasks s tg bid al firstTask rest hTasks,
      Score_eq_of_tasks s { tg with Tasks := firstTask :: later } bid al firstTask later rfl,
      scoreCost_congr_tasks]

/-- C4: an input of the first task whose shard location is unknown contributes
nothing: the score equals the score of the task group with every
unknown-location input removed from the first task, and with at least one task
the call returns a value. -/
theorem Score_dropUnknownInputs {Loc : Type} (s : Scheduler Loc) (tg : TaskGroup) (bid : ℚ)
    (al : Allocation Loc) :
    Score s (dropUnknownInputs s tg) bid al = Score s tg bid al ∧
    (tg.Tasks ≠ [] → ∃ v, Score s tg bid al = some v) := by
  refine ⟨?_, ?_⟩
  · cases hT : tg.Tasks with
    | nil => simp [dropUnknownInputs, hT]
    | cons firstTask rest =>
      have h1 : dropUnknownInputs s tg =
          { tg with
            Tasks :=
              { firstTask with
                Inputs := firstTask.Inputs.filter
                  (fun input => (s.GetShardLocation (shardKey s input)).isSome) } :: rest } := by
        simp [dropUnknownInputs, hT]
      rw [h1]
      simp only [Score, hT, scoreCost]
      have h2 := scoreLoop_filter_located s tg al firstTask.Inputs 1
      have h3 : ∀ (tasks : List Task) (inputs : List DatasetShard) (c : ℚ),
          scoreLoop s { tg with Tasks := tasks } al inputs c = scoreLoop s tg al inputs c := by
        intro tasks inputs c
        rw [scoreLoop_eq, scoreLoop_eq]; rfl
      rw [h3, h2]
  · intro hne
    cases hT : tg.Tasks with
    | nil => exact absurd hT hne
    | cons firstTask rest => exact ⟨_, Score_eq_of_tasks s tg bid al firstTask rest hT⟩

/-- C10: with at least one task `Score` returns a value, and when every
reported distance is non-negative the cost at the division is at least 1, so
the divisor is not zero and the absolute value of the score is at most that of
the bid. -/
theorem Score_defined {Loc : Type} (s : Scheduler Loc) (tg : TaskGroup) (bid : ℚ)
    (al : Allocation Loc) (hTasks : tg.Tasks ≠ []) :
    (∃ v, Score s tg bid al = some v) ∧
    ((∀ a b, 0 ≤ s.Distance a b) →
      ∃ firstTask, tg.Tasks.head? = some firstTask ∧
        1 ≤ scoreCost s tg al firstTask ∧ scoreCost s tg al firstTask ≠ 0 ∧
        Score s tg bid al = some (bid / scoreCost s tg al firstTask) ∧
        |bid / scoreCost s tg al firstTask| ≤ |bid|) := by
  cases hT : tg.Tasks with
  | nil => exact absurd hT hTasks
  | cons firstTask rest =>
    have hS := Score_eq_of_tasks s tg bid al firstTask rest hT
    refine ⟨⟨_, hS⟩, fun hd => ⟨firstTask, by simp, ?_⟩⟩
    have hc := one_le_scoreCost s tg al firstTask hd
    have hpos : (0 : ℚ) < scoreCost s tg al firstTask := by linarith
    refine ⟨hc, ne_of_gt hpos, hS, ?_⟩
    rw [abs_div, abs_of_pos hpos]
    exact div_le_self (abs_nonneg bid) hc

theorem distanceSum_lt {Loc : Type} (s s' : Scheduler Loc) (al al' : Allocation Loc)
    (inputs : List DatasetShard)
    (hhash : s'.ExecutableFileHash = s.ExecutableFileHash)
    (hdir : s'.GetShardLocation = s.GetShardLocation)
    (hle : ∀ l ∈ locatedInputs s inputs, s.Distance l al.Location ≤ s'.Distance l al'.Location)
    (hlt : ∃ l ∈ locatedInputs s inputs, s.Distance l al.Location < s'.Distance l al'.Location) :
    locatedInputs s' inputs = locatedInputs s inputs ∧
      distanceSum s al inputs < distanceSum s' al' inputs := by
  have hloc : locatedInputs s' inputs = locatedInputs s inputs := by
    simp [locatedInputs, shardKey, hhash, hdir]
  refine ⟨hloc, ?_⟩
  unfold distanceSum
  rw [hloc]
  exact List.sum_lt_sum _ _ hle hlt

/-- The monotonicity that holds of the score: for a fixed task group,
allocation and directory state with non-negative distances, the score is
strictly increasing in the bid; for a positive bid a strictly larger cost
gives a strictly smaller score, which is what a larger distance of a located
first-task input does, and what a capability mismatch in place of a match
does only when at least one first-task input is located. -/
theorem Score_strictMono {Loc : Type} (s : Scheduler Loc) (tg : TaskGroup) (al : Allocation Loc)
    (firstTask : Task) (rest : List Task) (hTasks : tg.Tasks = firstTask :: rest)
    (hd : ∀ a b, 0 ≤ s.Distance a b) :
    (0 < scoreCost s tg al firstTask ∧
      ∀ bid1 bid2 : ℚ, bid1 < bid2 →
        ∃ v1 v2, Score s tg bid1 al = some v1 ∧ Score s tg bid2 al = some v2 ∧ v1 < v2) ∧
    (∀ (s' : Scheduler Loc) (tg' : TaskGroup) (al' : Allocation Loc) (firstTask' : Task)
        (rest' : List Task) (bid : ℚ),
      tg'.Tasks = firstTask' :: rest' → 0 < bid →
      scoreCost s tg al firstTask < scoreCost s' tg' al' firstTask' →
        ∃ v v', Score s tg bid al = some v ∧ Score s' tg' bid al' = some v' ∧ v' < v) ∧
    (∀ (s' : Scheduler Loc) (al' : Allocation Loc) (bid : ℚ),
      s'.ExecutableFileHash = s.ExecutableFileHash →
      s'.GetShardLocation = s.GetShardLocation →
      al'.ProvidedResources = al.ProvidedResources → 0 < bid →
      (∀ l ∈ locatedInputs s firstTask.Inputs,
        s.Distance l al.Location ≤ s'.Distance l al'.Location) →
      (∃ l ∈ locatedInputs s firstTask.Inputs,
        s.Distance l al.Location < s'.Distance l al'.Location) →
        ∃ v v', Score s tg bid al = some v ∧ Score s' tg bid al' = some v' ∧ v' < v) ∧
    (∀ (al' : Allocation Loc) (bid : ℚ),
      al'.Location = al.Location → ¬ capabilityMismatch tg al → capabilityMismatch tg al' →
      locatedInputs s firstTask.Inputs ≠ [] → 0 < bid →
        ∃ v v', Score s tg bid al = some v ∧ Score s tg bid al' = some v' ∧ v' < v) := by
  have hc := one_le_scoreCost s tg al firstTask hd
  have hpos : (0 : ℚ) < scoreCost s tg al firstTask := by linarith
  have hS := fun bid => Score_eq_of_tasks s tg bid al firstTask rest hTasks
  refine ⟨⟨hpos, ?_⟩, ?_, ?_, ?_⟩
  · intro bid1 bid2 hlt
    exact ⟨_, _, hS bid1, hS bid2, div_lt_div_of_pos_right hlt hpos⟩
  · intro s' tg' al' firstTask' rest' bid hT' hbid hlt
    exact ⟨_, _, hS bid, Score_eq_of_tasks s' tg' bid al' firstTask' rest' hT',
      div_lt_div_of_cost_lt bid _ _ hbid hc hlt⟩
  · intro s' al' bid hhash hdir hprov hbid hle hlt
    refine ⟨_, _, hS bid, Score_eq_of_tasks s' tg bid al' firstTask rest hTasks,
      div_lt_div_of_cost_lt bid _ _ hbid hc ?_⟩
    obtain ⟨hloc, hsum⟩ := distanceSum_lt s s' al al' firstTask.Inputs hhash hdir hle hlt
    have hmm : capabilityMismatch tg al' ↔ capabilityMismatch tg al := by
      simp [capabilityMismatch, hprov]
    rw [scoreCost_eq, scoreCost_eq, hloc]
    by_cases hm : capabilityMismatch tg al
    · rw [if_pos hm, if_pos (hmm.2 hm)]; linarith
    · rw [if_neg hm, if_neg (fun h => hm (hmm.1 h))]; linarith
  · intro al' bid hlocEq hm hm' hne hbid
    refine ⟨_, _, hS bid, Score_eq_of_tasks s tg bid al' firstTask rest hTasks,
      div_lt_div_of_cost_lt bid _ _ hbid hc ?_⟩
    have hsum : distanceSum s al' firstTask.Inputs = distanceSum s al firstTask.Inputs := by
      simp [distanceSum, hlocEq]
    have hlen : (1 : ℚ) ≤ ((locatedInputs s firstTask.Inputs).length : ℚ) := by
      have : 1 ≤ (locatedInputs s firstTask.Inputs).length :=
        List.length_pos.2 hne
      exact_mod_cast this
    rw [scoreCost_eq, scoreCost_eq, if_neg hm, if_pos hm', hsum]
    linarith


/-! ## Lemmas on the clean-restart cleanup -/

theorem HasSuffix_iff (s suffix : String) :
    HasSuffix s suffix = true ↔ suffix.data <:+ s.data := by
  unfold HasSuffix
  constructor
  · intro h
    simp only [Bool.and_eq_true, decide_eq_true_eq, beq_iff_eq] at h
    rw [← h.2]
    exact List.drop_suffix _ _
  · rintro ⟨pre, hpre⟩
    simp only [Bool.and_eq_true, decide_eq_true_eq, beq_iff_eq]
    rw [← hpre]
    refine ⟨by simp, ?_⟩
    have : (pre ++ suffix.data).length - suffix.data.length = pre.length := by simp
    rw [this, List.drop_left]

theorem isStale_iff (port : Int) (fi : FileInfo) :
    isStale port fi = true ↔
      fi.IsDir = false ∧ ("-" ++ toString port ++ ".dat").data <:+ fi.Name.data := by
  unfold isStale portSuffix
  rw [Bool.and_eq_true, HasSuffix_iff]
  simp

theorem Remove_listable (name : String) (d : StoreDir) :
    (Remove name d).listable = d.listable := by
  unfold Remove; split <;> rfl

theorem Remove_undeletable (name : String) (d : StoreDir) :
    (Remove name d).undeletable = d.undeletable := by
  unfold Remove; split <;> rfl

theorem Remove_entries (name : String) (d : StoreDir) :
    (Remove name d).entries =
      d.entries.filter (fun fi => decide (name ∈ d.undeletable) || (fi.Name != name)) := by
  unfold Remove
  by_cases h : name ∈ d.undeletable
  · simp [h]
  · simp [h]

/-- The loop hands exactly the stale names to `os.Remove`, in listing order,
and the directory loses the entries with those of these names for which
`os.Remove` succeeds. -/
theorem cleanupLoop_eq (port : Int) (l : List FileInfo) (d : StoreDir) (removed : List String) :
    cleanupLoop (portSuffix port) l (d, removed) =
      (StoreDir.mk
          (d.entries.filter
            (fun fi => decide (fi.Name ∈ d.undeletable ∨
              fi.Name ∉ (l.filter (isStale port)).map FileInfo.Name)))
          d.listable d.undeletable,
        removed ++ (l.filter (isStale port)).map FileInfo.Name) := by
  induction l generalizing d removed with
  | nil => simp [cleanupLoop]
  | cons fi rest ih =>
    unfold cleanupLoop
    by_cases h : isStale port fi = true
    · have h' : (!fi.IsDir && HasSuffix fi.Name (portSuffix port)) = true := h
      simp only [h', if_true, ih, List.filter_cons, h, List.map_cons, Remove_listable,
        Remove_undeletable, Remove_entries, List.filter_filter, List.append_assoc,
        List.singleton_append]
      congr 2
      apply List.filter_congr
      intro x _
      by_cases hx : x.Name = fi.Name
      · by_cases hu : fi.Name ∈ d.undeletable <;> simp [hx, hu]
      · have hx' : ¬ fi.Name = x.Name := fun e => hx e.symm
        by_cases hu : fi.Name ∈ d.undeletable <;> simp [hx, hx', hu]
    · have h' : ¬ ((!fi.IsDir && HasSuffix fi.Name (portSuffix port)) = true) := h
      simp only [h', if_false, ih, List.filter_cons, h]
      simp

theorem stale_name_mem_iff (port : Int) (entries : List FileInfo)
    (hnodup : (entries.map FileInfo.Name).Nodup) (fi : FileInfo) (hfi : fi ∈ entries) :
    fi.Name ∈ (entries.filter (isStale port)).map FileInfo.Name ↔ isStale port fi = true := by
  constructor
  · intro h
    obtain ⟨fi', hmem, hname⟩ := List.mem_map.1 h
    obtain ⟨hmem', hst⟩ := List.mem_filter.1 hmem
    have : fi' = fi := List.inj_on_of_nodup_map hnodup hmem' hfi hname
    rw [← this]; exact hst
  · intro h
    exact List.mem_map.2 ⟨fi, List.mem_filter.2 ⟨hfi, h⟩, rfl⟩

/-! ## The clean-restart cleanup: claim -/

/-- C6 (as amended): once the listener is bound, with the clean-restart flag
set and the store directory listable, `init` hands to `os.Remove` exactly the
non-directory entries whose name ends with `-<port>.dat`; those for which
`os.Remove` succeeds leave the directory, those for which it fails stay, and
every other entry is left in place; with the flag unset nothing is removed. -/
theorem init_cleanRestart (o : AgentServerOption) (d : StoreDir) :
    (o.listenErr = false → o.CleanRestart = true → d.listable = true →
      (d.entries.map FileInfo.Name).Nodup →
      ∃ d' removed, AgentServer.init o d = some (d', removed) ∧
        removed = (d.entries.filter (isStale o.Port)).map FileInfo.Name ∧
        d'.entries =
          d.entries.filter
            (fun fi => !(isStale o.Port fi && decide (fi.Name ∉ d.undeletable))) ∧
        ∀ fi ∈ d.entries,
          (fi ∈ d'.entries ↔
            ¬ (fi.IsDir = false ∧
                ("-" ++ toString o.Port ++ ".dat").data <:+ fi.Name.data ∧
                fi.Name ∉ d.undeletable))) ∧
    (o.CleanRestart = false →
      AgentServer.init o d = if o.listenErr then none else some (d, [])) := by
  refine ⟨?_, ?_⟩
  · intro hlisten hflag hlist hnodup
    have hfilter : d.entries.filter
          (fun fi => decide (fi.Name ∈ d.undeletable ∨
            fi.Name ∉ (d.entries.filter (isStale o.Port)).map FileInfo.Name)) =
        d.entries.filter
          (fun fi => !(isStale o.Port fi && decide (fi.Name ∉ d.undeletable))) := by
      apply List.filter_congr
      intro fi hfi
      have := stale_name_mem_iff o.Port d.entries hnodup fi hfi
      by_cases hst : isStale o.Port fi = true
      · by_cases hu : fi.Name ∈ d.undeletable <;> simp [this, hst, hu]
      · simp only [Bool.not_eq_true] at hst
        by_cases hu : fi.Name ∈ d.undeletable <;> simp [this, hst, hu]
    refine ⟨StoreDir.mk
        (d.entries.filter
          (fun fi => !(isStale o.Port fi && decide (fi.Name ∉ d.undeletable))))
        d.listable d.undeletable,
      (d.entries.filter (isStale o.Port)).map FileInfo.Name, ?_, rfl, rfl, ?_⟩
    · simp only [AgentServer.init, hlisten, hflag, ReadDir, hlist, cleanupLoop_eq, hfilter,
        if_true, List.nil_append, Bool.false_eq_true, if_false]
    · intro fi hfi
      rw [List.mem_filter, ← and_assoc, ← isStale_iff]
      by_cases hst : isStale o.Port fi = true
      · by_cases hu : fi.Name ∈ d.undeletable <;> simp [hfi, hst, hu]
      · simp only [Bool.not_eq_true] at hst
        simp [hfi, hst]
  · intro hflag
    simp [AgentServer.init, hflag]

/-- An instance of C6 as amended: the store directory of the clean-restart
example, every removal succeeding. -/
theorem init_cleanRestart_witness :
    ∃ d' removed,
      AgentServer.init ⟨9000, true, false⟩
          ⟨[⟨"x-9000.dat", false⟩, ⟨"y-9000.dat", false⟩, ⟨"z-9001.dat", false⟩], true, []⟩ =
        some (d', removed) ∧
      removed = ["x-9000.dat", "y-9000.dat"] ∧
      d'.entries = [⟨"z-9001.dat", false⟩] := by
  obtain ⟨d', removed, h1, h2, h3, _⟩ :=
    (init_cleanRestart ⟨9000, true, false⟩
      ⟨[⟨"x-9000.dat", false⟩, ⟨"y-9000.dat", false⟩, ⟨"z-9001.dat", false⟩], true, []⟩).1
      rfl rfl rfl (by decide)
  exact ⟨d', removed, h1, by rw [h2]; decide, by rw [h3]; decide⟩

/-- C6 (counterexample): with the flag set, port 9000 and a listable store
directory holding `x-9000.dat`, `y-9000.dat` and `z-9001.dat`, a failing
`os.Remove` of `x-9000.dat` leaves that file in place, and a failed listen
ends `init` before anything is removed. -/
theorem init_cleanRestart_counterexample :
    AgentServer.init ⟨9000, true, false⟩
        ⟨[⟨"x-9000.dat", false⟩, ⟨"y-9000.dat", false⟩, ⟨"z-9001.dat", false⟩], true,
          ["x-9000.dat"]⟩ =
      some (⟨[⟨"x-9000.dat", false⟩, ⟨"z-9001.dat", false⟩], true, ["x-9000.dat"]⟩,
        ["x-9000.dat", "y-9000.dat"]) ∧
    isStale 9000 ⟨"x-9000.dat", false⟩ = true ∧
    AgentServer.init ⟨9000, true, true⟩
        ⟨[⟨"x-9000.dat", false⟩, ⟨"y-9000.dat", false⟩, ⟨"z-9001.dat", false⟩], true, []⟩ =
      none := by
  decide

/-! ## Lemmas on `handleRequest` -/

theorem HasPrefix_iff (s p : List Nat) : HasPrefix s p = true ↔ p <+: s := by
  unfold HasPrefix
  simp only [Bool.and_eq_true, decide_eq_true_eq, beq_iff_eq]
  constructor
  · rintro ⟨_, h⟩
    rw [← h]
    exact List.take_prefix _ _
  · rintro ⟨t, rfl⟩
    exact ⟨by simp, by simp⟩

theorem HasPrefix_append (p t : List Nat) : HasPrefix (p ++ t) p = true :=
  (HasPrefix_iff _ _).2 (List.prefix_append p t)

theorem HasPrefix_eq_false (s p : List Nat) (h : ¬ p <+: s) : HasPrefix s p = false := by
  cases hp : HasPrefix s p with
  | false => rfl
  | true => exact absurd ((HasPrefix_iff s p).1 hp) h

theorem dispatched_logged {Msg : Type} (err : Bool) (evs : List (Event Msg)) :
    dispatched ((if err then [Event.logReadError] else []) ++ evs) = dispatched evs := by
  cases err <;> simp [dispatched, Event.isDispatch]

/-- No operation is dispatched on a TLS connection whose handshake is
incomplete, nor for a frame whose flag is not the data flag. -/
theorem handleRequest_dropped {Msg : Type} (r : AgentServer Msg) (conn : Conn) (rd : ReadResult)
    (h : (conn.isTLS = true ∧ conn.HandshakeComplete = false) ∨ rd.f ≠ r.Data) :
    dispatched (r.handleRequest conn rd) = [] := by
  unfold AgentServer.handleRequest
  by_cases hs : (conn.isTLS && !conn.HandshakeComplete) = true
  · simp [hs, dispatched, Event.isDispatch]
  · rcases h with ⟨h1, h2⟩ | h
    · simp [h1, h2] at hs
    · simp [hs, h, dispatched, Event.isDispatch]

theorem ReadUint64_uint64Bytes (conn : Conn) (v : Nat) (rest : List Nat) (hv : v < 2 ^ 64)
    (hpending : conn.pending = uint64Bytes v ++ rest) : ReadUint64 conn = v := by
  unfold ReadUint64
  rw [hpending]
  simp only [uint64Bytes, List.cons_append, List.take_succ_cons, List.take_zero, List.foldl_cons,
    List.foldl_nil, List.nil_append]
  norm_num at hv ⊢
  omega

/-- The branch taken by a frame that `handleRequest` goes on to route. -/
theorem handleRequest_routed {Msg : Type} (r : AgentServer Msg) (conn : Conn) (rd : ReadResult)
    (hflag : rd.f = r.Data) (hshake : conn.isTLS = true → conn.HandshakeComplete = true) :
    r.handleRequest conn rd =
      (if rd.err then [Event.logReadError] else []) ++
        (if HasPrefix rd.data PUT then [Event.handleLocalWriteConnection (rd.data.drop 4)]
         else if HasPrefix rd.data GET then
           [Event.handleReadConnection (rd.data.drop 4) (int64 (ReadUint64 conn))]
         else if HasPrefix rd.data CMD then
           match r.Unmarshal (rd.data.drop 4) with
           | none => [Event.fatal]
           | some newCmd =>
             match r.handleCommandConnection newCmd with
             | none => [Event.handleCommandConnection newCmd]
             | some reply =>
               match r.Marshal reply with
               | none => [Event.handleCommandConnection newCmd, Event.fatal]
               | some data => [Event.handleCommandConnection newCmd, Event.connWrite data]
         else []) := by
  have hs : (conn.isTLS && !conn.HandshakeComplete) = false := by
    cases h1 : conn.isTLS with
    | false => rfl
    | true => simp [hshake h1]
  unfold AgentServer.handleRequest
  simp only [hs, hflag, Bool.false_eq_true, if_false, ne_eq, not_true_eq_false]
  split
  · rfl
  · split
    · rfl
    · split
      · cases hU : r.Unmarshal (rd.data.drop 4) with
        | none => rfl
        | some newCmd =>
          cases hH : r.handleCommandConnection newCmd with
          | none => simp only [hH]
          | some reply =>
            cases hM : r.Marshal reply with
            | none => simp only [hH, hM]
            | some data => simp only [hH, hM]
      · simp

/-- A routed `GET <name>` frame dispatches the shard read for `name` at the
converted offset. -/
theorem dispatched_GET {Msg : Type} (r : AgentServer Msg) (conn : Conn) (rd : ReadResult)
    (name : List Nat) (hflag : rd.f = r.Data)
    (hshake : conn.isTLS = true → conn.HandshakeComplete = true)
    (hdata : rd.data = GET ++ name) :
    dispatched (r.handleRequest conn rd) =
      [Event.handleReadConnection name (int64 (ReadUint64 conn))] := by
  have hP : HasPrefix rd.data PUT = false := by rw [hdata]; simp [HasPrefix, PUT, GET]
  have hG : HasPrefix rd.data GET = true := by rw [hdata]; exact HasPrefix_append _ _
  have hdrop : rd.data.drop 4 = name := by rw [hdata]; rfl
  rw [handleRequest_routed r conn rd hflag hshake, dispatched_logged, hP,
    if_neg Bool.false_ne_true, if_pos hG, hdrop]
  rfl

/-! ## `handleRequest`: claims -/

/-- C7 (as amended): for a data frame on a connection that is not a TLS
connection with an incomplete handshake, a payload `PUT <name>` dispatches
exactly the shard write for `name`, `GET <name>` exactly the shard read for
`name`, `CMD <payload>` exactly the control handler on the decoded payload
when it decodes and nothing but a fatal exit when it does not, and a payload
with none of the three prefixes dispatches nothing and writes nothing. -/
theorem handleRequest_routing {Msg : Type} (r : AgentServer Msg) (conn : Conn) (rd : ReadResult)
    (hflag : rd.f = r.Data) (hshake : conn.isTLS = true → conn.HandshakeComplete = true) :
    (∀ name, rd.data = PUT ++ name →
      dispatched (r.handleRequest conn rd) = [Event.handleLocalWriteConnection name]) ∧
    (∀ name, rd.data = GET ++ name →
      dispatched (r.handleRequest conn rd) =
        [Event.handleReadConnection name (int64 (ReadUint64 conn))]) ∧
    (∀ payload, rd.data = CMD ++ payload →
      (∀ newCmd, r.Unmarshal payload = some newCmd →
        dispatched (r.handleRequest conn rd) = [Event.handleCommandConnection newCmd]) ∧
      (r.Unmarshal payload = none →
        dispatched (r.handleRequest conn rd) = [] ∧ Event.fatal ∈ r.handleRequest conn rd)) ∧
    (¬ PUT <+: rd.data → ¬ GET <+: rd.data → ¬ CMD <+: rd.data →
      dispatched (r.handleRequest conn rd) = [] ∧
        ∀ e ∈ r.handleRequest conn rd, e.isConnWrite = false) := by
  have hR := handleRequest_routed r conn rd hflag hshake
  refine ⟨?_, ?_, ?_, ?_⟩
  · intro name hdata
    have hP : HasPrefix rd.data PUT = true := by rw [hdata]; exact HasPrefix_append _ _
    have hdrop : rd.data.drop 4 = name := by rw [hdata]; rfl
    rw [hR, dispatched_logged, if_pos hP, hdrop]
    rfl
  · intro name hdata
    exact dispatched_GET r conn rd name hflag hshake hdata
  · intro payload hdata
    have hP : HasPrefix rd.data PUT = false := by rw [hdata]; simp [HasPrefix, PUT, CMD]
    have hG : HasPrefix rd.data GET = false := by rw [hdata]; simp [HasPrefix, GET, CMD]
    have hC : HasPrefix rd.data CMD = true := by rw [hdata]; exact HasPrefix_append _ _
    have hdrop : rd.data.drop 4 = payload := by rw [hdata]; rfl
    rw [hR, dispatched_logged, hP, hG, if_neg Bool.false_ne_true, if_neg Bool.false_ne_true,
      if_pos hC, hdrop]
    refine ⟨?_, ?_⟩
    · intro newCmd hU
      rw [hU]
      cases hH : r.handleCommandConnection newCmd with
      | none => simp [hH, dispatched, Event.isDispatch]
      | some reply =>
        cases hM : r.Marshal reply with
        | none => simp [hH, hM, dispatched, Event.isDispatch]
        | some data => simp [hH, hM, dispatched, Event.isDispatch]
    · intro hU
      rw [hU]
      exact ⟨rfl, by simp⟩
  · intro hP hG hC
    rw [hR, dispatched_logged, HasPrefix_eq_false _ _ hP, HasPrefix_eq_false _ _ hG,
      HasPrefix_eq_false _ _ hC]
    refine ⟨rfl, ?_⟩
    intro e he
    cases herr : rd.err <;> simp [herr] at he
    subst he
    rfl

/-- An instance of the routing theorem: a plain connection carrying the data
frame `PUT a`. -/
theorem handleRequest_routing_witness :
    (0 : Nat) = demoAgent.Data ∧
      dispatched (demoAgent.handleRequest ⟨false, false, []⟩ ⟨0, PUT ++ [97], false⟩) =
        [Event.handleLocalWriteConnection [97]] :=
  ⟨rfl,
    (handleRequest_routing demoAgent ⟨false, false, []⟩ ⟨0, PUT ++ [97], false⟩ rfl
      (fun h => absurd h (by decide))).1 [97] rfl⟩

/-- C7 (counterexample): a data frame `CMD ` followed by a payload that does
not decode dispatches no operation (the process exits), and a data frame
`PUT a` on a TLS connection whose handshake is incomplete dispatches no
operation either. -/
theorem handleRequest_routing_counterexample :
    demoAgent.Unmarshal [255] = none ∧
    demoAgent.handleRequest ⟨false, true, []⟩ ⟨demoAgent.Data, CMD ++ [255], false⟩ =
      [Event.fatal] ∧
    dispatched (demoAgent.handleRequest ⟨false, true, []⟩ ⟨demoAgent.Data, CMD ++ [255], false⟩) =
      [] ∧
    demoAgent.handleRequest ⟨true, false, []⟩ ⟨demoAgent.Data, PUT ++ [97], false⟩ =
      [Event.logHandshake] ∧
    dispatched (demoAgent.handleRequest ⟨true, false, []⟩ ⟨demoAgent.Data, PUT ++ [97], false⟩) =
      [] := by
  decide

/-- C8 (the code at the failing input): a frame read with an error but
carrying the data flag and the payload `PUT a` is logged and then routed: the
shard write path is dispatched. -/
theorem handleRequest_read_error_dispatches :
    demoAgent.handleRequest ⟨false, true, []⟩ ⟨demoAgent.Data, PUT ++ [97], true⟩ =
      [Event.logReadError, Event.handleLocalWriteConnection [97]] ∧
    dispatched (demoAgent.handleRequest ⟨false, true, []⟩ ⟨demoAgent.Data, PUT ++ [97], true⟩) =
      [Event.handleLocalWriteConnection [97]] := by
  decide

/-- C9 (as amended): for a routed `GET <name>` frame followed by the 8-byte
big-endian encoding of `v`, the offset handed to the shard read path is `v`
when `v < 2^63` and `v - 2^64`, a negative number, when `2^63 ≤ v < 2^64`. -/
theorem handleRequest_GET_offset {Msg : Type} (r : AgentServer Msg) (conn : Conn)
    (rd : ReadResult) (name rest : List Nat) (v : Nat)
    (hflag : rd.f = r.Data) (hshake : conn.isTLS = true → conn.HandshakeComplete = true)
    (hdata : rd.data = GET ++ name) (hv : v < 2 ^ 64)
    (hpending : conn.pending = uint64Bytes v ++ rest) :
    ∃ offset : Int,
      dispatched (r.handleRequest conn rd) = [Event.handleReadConnection name offset] ∧
      (v < 2 ^ 63 → offset = (v : Int)) ∧
      (2 ^ 63 ≤ v → offset = (v : Int) - 2 ^ 64 ∧ offset < 0) := by
  refine ⟨int64 v, ?_, ?_, ?_⟩
  · rw [dispatched_GET r conn rd name hflag hshake hdata,
      ReadUint64_uint64Bytes conn v rest hv hpending]
  · intro h
    unfold int64
    rw [Nat.mod_eq_of_lt hv, if_pos h]
  · intro h
    unfold int64
    rw [Nat.mod_eq_of_lt hv, if_neg (not_lt.2 h)]
    refine ⟨rfl, ?_⟩
    have : ((v : Nat) : Int) < 2 ^ 64 := by exact_mod_cast hv
    linarith

/-- An instance of the offset theorem: offset 258 after `GET a`. -/
theorem handleRequest_GET_offset_witness :
    (258 < 2 ^ 64) ∧
      ∃ offset : Int,
        dispatched (demoAgent.handleRequest ⟨false, false, uint64Bytes 258⟩
            ⟨0, GET ++ [97], false⟩) = [Event.handleReadConnection [97] offset] ∧
        (258 < 2 ^ 63 → offset = ((258 : Nat) : Int)) ∧
        (2 ^ 63 ≤ 258 → offset = ((258 : Nat) : Int) - 2 ^ 64 ∧ offset < 0) :=
  ⟨by decide,
    handleRequest_GET_offset demoAgent ⟨false, false, uint64Bytes 258⟩ ⟨0, GET ++ [97], false⟩
      [97] [] 258 rfl (fun h => absurd h (by decide)) rfl (by decide) (by simp)⟩

/-- C9 (counterexample): the 8 bytes `80 00 00 00 00 00 00 00` encode
`2^63`, and the offset handed to the shard read path after `GET a` is
`-2^63`, a negative number different from the value received. -/
theorem handleRequest_GET_offset_counterexample :
    uint64Bytes (2 ^ 63) = [128, 0, 0, 0, 0, 0, 0, 0] ∧
    ReadUint64 ⟨false, true, [128, 0, 0, 0, 0, 0, 0, 0]⟩ = 2 ^ 63 ∧
    dispatched (demoAgent.handleRequest ⟨false, true, [128, 0, 0, 0, 0, 0, 0, 0]⟩
        ⟨demoAgent.Data, GET ++ [97], false⟩) =
      [Event.handleReadConnection [97] (-9223372036854775808)] ∧
    (-9223372036854775808 : Int) < 0 ∧
    (-9223372036854775808 : Int) ≠ ((2 ^ 63 : Nat) : Int) := by
  decide

/-! ## The scheduler valuation function at concrete inputs -/

theorem demoScheduler_Distance_nonneg (a b : Nat) : 0 ≤ demoScheduler.Distance a b := by
  simp [demoScheduler]

/-- An instance of C1: capability `gpu` required and provided, inputs `a` and
`b` located at distances 2 and 3 from the allocation, `c` unknown. -/
theorem Score_matching_capability_witness :
    ("gpu" = "" ∨ "gpu" ∈ ["gpu"]) ∧
      Score demoScheduler ⟨[⟨[⟨"a"⟩, ⟨"b"⟩, ⟨"c"⟩]⟩], "gpu"⟩ 7 ⟨2, ["gpu"]⟩ =
        some (7 / (1 + distanceSum demoScheduler ⟨2, ["gpu"]⟩ [⟨"a"⟩, ⟨"b"⟩, ⟨"c"⟩])) :=
  ⟨Or.inr (by simp),
    (Score_matching_capability demoScheduler ⟨[⟨[⟨"a"⟩, ⟨"b"⟩, ⟨"c"⟩]⟩], "gpu"⟩ 7 ⟨2, ["gpu"]⟩
      ⟨[⟨"a"⟩, ⟨"b"⟩, ⟨"c"⟩]⟩ [] rfl (Or.inr (by simp))).1⟩

/-- An instance of C4: the group with inputs `a`, `b`, `c` returns a value. -/
theorem Score_dropUnknownInputs_witness :
    ∃ v, Score demoScheduler ⟨[⟨[⟨"a"⟩, ⟨"b"⟩, ⟨"c"⟩]⟩], "gpu"⟩ 7 ⟨2, []⟩ = some v :=
  (Score_dropUnknownInputs demoScheduler ⟨[⟨[⟨"a"⟩, ⟨"b"⟩, ⟨"c"⟩]⟩], "gpu"⟩ 7 ⟨2, []⟩).2
    (by simp)

/-- An instance of C10: bid -7 on the group with inputs `a`, `b`, `c`. -/
theorem Score_defined_witness :
    ∃ firstTask,
      (TaskGroup.mk [⟨[⟨"a"⟩, ⟨"b"⟩, ⟨"c"⟩]⟩] "gpu").Tasks.head? = some firstTask ∧
      1 ≤ scoreCost demoScheduler ⟨[⟨[⟨"a"⟩, ⟨"b"⟩, ⟨"c"⟩]⟩], "gpu"⟩ ⟨2, []⟩ firstTask ∧
      scoreCost demoScheduler ⟨[⟨[⟨"a"⟩, ⟨"b"⟩, ⟨"c"⟩]⟩], "gpu"⟩ ⟨2, []⟩ firstTask ≠ 0 ∧
      Score demoScheduler ⟨[⟨[⟨"a"⟩, ⟨"b"⟩, ⟨"c"⟩]⟩], "gpu"⟩ (-7) ⟨2, []⟩ =
        some (-7 / scoreCost demoScheduler ⟨[⟨[⟨"a"⟩, ⟨"b"⟩, ⟨"c"⟩]⟩], "gpu"⟩ ⟨2, []⟩ firstTask) ∧
      |(-7 : ℚ) / scoreCost demoScheduler ⟨[⟨[⟨"a"⟩, ⟨"b"⟩, ⟨"c"⟩]⟩], "gpu"⟩ ⟨2, []⟩ firstTask| ≤
        |(-7 : ℚ)| :=
  (Score_defined demoScheduler ⟨[⟨[⟨"a"⟩, ⟨"b"⟩, ⟨"c"⟩]⟩], "gpu"⟩ (-7) ⟨2, []⟩ (by simp)).2
    demoScheduler_Distance_nonneg

/-- An instance of the monotonicity in the bid: bids 1 and 2 on the group
with inputs `a`, `b`, `c`. -/
theorem Score_strictMono_witness :
    ∃ v1 v2 : ℚ,
      Score demoScheduler ⟨[⟨[⟨"a"⟩, ⟨"b"⟩, ⟨"c"⟩]⟩], "gpu"⟩ 1 ⟨2, []⟩ = some v1 ∧
      Score demoScheduler ⟨[⟨[⟨"a"⟩, ⟨"b"⟩, ⟨"c"⟩]⟩], "gpu"⟩ 2 ⟨2, []⟩ = some v2 ∧ v1 < v2 :=
  (Score_strictMono demoScheduler ⟨[⟨[⟨"a"⟩, ⟨"b"⟩, ⟨"c"⟩]⟩], "gpu"⟩ ⟨2, []⟩
    ⟨[⟨"a"⟩, ⟨"b"⟩, ⟨"c"⟩]⟩ [] rfl demoScheduler_Distance_nonneg).1.2 1 2 (by norm_num)

/-- C2 (the code at the failing inputs): the task group requires `gpu`. With
no first-task input the cost is 1 whether or not the allocation provides
`gpu`, so no penalty is added; with the two located inputs `a` and `b` the
cost without `gpu` is 20006 against 6 with it, a penalty of 20000. -/
theorem Score_penalty_per_located_input :
    scoreCost demoScheduler ⟨[⟨[]⟩], "gpu"⟩ ⟨2, []⟩ ⟨[]⟩ = 1 ∧
    scoreCost demoScheduler ⟨[⟨[]⟩], "gpu"⟩ ⟨2, ["gpu"]⟩ ⟨[]⟩ = 1 ∧
    Score demoScheduler ⟨[⟨[]⟩], "gpu"⟩ 7 ⟨2, []⟩ = some 7 ∧
    scoreCost demoScheduler ⟨[⟨[⟨"a"⟩, ⟨"b"⟩]⟩], "gpu"⟩ ⟨2, []⟩ ⟨[⟨"a"⟩, ⟨"b"⟩]⟩ = 20006 ∧
    scoreCost demoScheduler ⟨[⟨[⟨"a"⟩, ⟨"b"⟩]⟩], "gpu"⟩ ⟨2, ["gpu"]⟩ ⟨[⟨"a"⟩, ⟨"b"⟩]⟩ = 6 ∧
    Score demoScheduler ⟨[⟨[⟨"a"⟩, ⟨"b"⟩]⟩], "gpu"⟩ 7 ⟨2, []⟩ = some (7 / 20006) := by
  refine ⟨?_, ?_, ?_, ?_, ?_, ?_⟩ <;>
    simp [Score, scoreCost, scoreLoop, shardKey, demoScheduler, containsStr] <;> norm_num

/-- C3 (the code at the failing input): the task group requires `gpu` and
its only first-task input `c` has no known location; at bid 7 the allocation
lacking `gpu` and the allocation providing it, both at location 2, get the
same score 7, so the one lacking `gpu` is not strictly lower. -/
theorem Score_no_penalty_without_located_input :
    demoScheduler.GetShardLocation (shardKey demoScheduler ⟨"c"⟩) = none ∧
    Score demoScheduler ⟨[⟨[⟨"c"⟩]⟩], "gpu"⟩ 7 ⟨2, []⟩ = some 7 ∧
    Score demoScheduler ⟨[⟨[⟨"c"⟩]⟩], "gpu"⟩ 7 ⟨2, ["gpu"]⟩ = some 7 ∧
    ¬ (∃ v v' : ℚ, Score demoScheduler ⟨[⟨[⟨"c"⟩]⟩], "gpu"⟩ 7 ⟨2, []⟩ = some v ∧
        Score demoScheduler ⟨[⟨[⟨"c"⟩]⟩], "gpu"⟩ 7 ⟨2, ["gpu"]⟩ = some v' ∧ v < v') := by
  have h1 : Score demoScheduler ⟨[⟨[⟨"c"⟩]⟩], "gpu"⟩ 7 ⟨2, []⟩ = some 7 := by
    simp [Score, scoreCost, scoreLoop, shardKey, demoScheduler]
  have h2 : Score demoScheduler ⟨[⟨[⟨"c"⟩]⟩], "gpu"⟩ 7 ⟨2, ["gpu"]⟩ = some 7 := by
    simp [Score, scoreCost, scoreLoop, shardKey, demoScheduler]
  refine ⟨by simp [shardKey, demoScheduler], h1, h2, ?_⟩
  rintro ⟨v, v', hv, hv', hlt⟩
  rw [h1] at hv
  rw [h2] at hv'
  have e1 : v = 7 := (Option.some.inj hv).symm
  have e2 : v' = 7 := (Option.some.inj hv').symm
  rw [e1, e2] at hlt
  exact lt_irrefl _ hlt

/-- C5 (the code at the failing input): the task group requires `ssd` and
its first task has no input; at the positive bid 3 the cost is 1 both for the
allocation that provides `ssd` and for the one that does not, so a capability
mismatch in place of a match gives neither a strictly larger cost nor a
strictly smaller score: both scores are 3. -/
theorem Score_mismatch_not_strictly_smaller :
    containsStr ["ssd"] "ssd" = true ∧ containsStr [] "ssd" = false ∧
    scoreCost demoScheduler ⟨[⟨[]⟩], "ssd"⟩ ⟨0, ["ssd"]⟩ ⟨[]⟩ = 1 ∧
    scoreCost demoScheduler ⟨[⟨[]⟩], "ssd"⟩ ⟨0, []⟩ ⟨[]⟩ = 1 ∧
    Score demoScheduler ⟨[⟨[]⟩], "ssd"⟩ 3 ⟨0, ["ssd"]⟩ = some 3 ∧
    Score demoScheduler ⟨[⟨[]⟩], "ssd"⟩ 3 ⟨0, []⟩ = some 3 ∧
    ¬ (∃ v v' : ℚ, Score demoScheduler ⟨[⟨[]⟩], "ssd"⟩ 3 ⟨0, ["ssd"]⟩ = some v ∧
        Score demoScheduler ⟨[⟨[]⟩], "ssd"⟩ 3 ⟨0, []⟩ = some v' ∧ v' < v) := by
  have h1 : Score demoScheduler ⟨[⟨[]⟩], "ssd"⟩ 3 ⟨0, ["ssd"]⟩ = some 3 := by
    simp [Score, scoreCost, scoreLoop]
  have h2 : Score demoScheduler ⟨[⟨[]⟩], "ssd"⟩ 3 ⟨0, []⟩ = some 3 := by
    simp [Score, scoreCost, scoreLoop]
  refine ⟨by simp [containsStr], by simp [containsStr], by simp [scoreCost, scoreLoop],
    by simp [scoreCost, scoreLoop], h1, h2, ?_⟩
  rintro ⟨v, v', hv, hv', hlt⟩
  rw [h1] at hv
  rw [h2] at hv'
  have e1 : v = 3 := (Option.some.inj hv).symm
  have e2 : v' = 3 := (Option.some.inj hv').symm
  rw [e1, e2] at hlt
  exact lt_irrefl _ hlt

end Glow
